import Mathlib

/-!
VirgoAI student dashboard: verification development.

Shallow embedding of `src/app/Componets/Dashboard.jsx` (the `StudentDashboard`
component): the record collection, the sort directive, the search filter, the
pagination window and the inline edit handler, and of the plan selection of
`src/app/Payment/page.jsx`, followed by theorems about them.

Modelling conventions.

* A JavaScript string is its sequence of UTF-16 code units (`JSString`), which is
  what `===`, `<` and `includes` of the runtime look at.
* A record (a plain object whose values are all strings, as in the fixture and as
  `e.target.value` always is) is the list of its own properties in insertion order.
* React state is one `State` value; every event handler is a function `State → State`
  reading the state of the render it was created in.
* `String.prototype.toLowerCase` is a runtime built-in that is not part of the
  repository; the functions that call it take it as the argument `toLowerCase`.
  `asciiLowerCase` is its restriction to Basic Latin, used to evaluate the fixture.
-/

namespace Dashboard

/-! ## Strings -/

/-- A JavaScript string: the list of its UTF-16 code units. -/
abbrev JSString := List Nat

/-- UTF-16 encoding of one Unicode scalar value. -/
def utf16 (c : Char) : List Nat :=
  if c.toNat < 0x10000 then [c.toNat]
  else [0xD800 + (c.toNat - 0x10000) / 0x400, 0xDC00 + (c.toNat - 0x10000) % 0x400]

/-- The JavaScript string written by a source literal. -/
def str (s : String) : JSString :=
  s.toList.flatMap utf16

/-- The relational operator `<` on two strings: lexicographic comparison of code units,
a proper prefix being smaller. -/
def stringLt : JSString → JSString → Bool
  | [], [] => false
  | [], _ :: _ => true
  | _ :: _, [] => false
  | a :: x, b :: y => if a < b then true else if b < a then false else stringLt x y

/-- Whether `needle` is an initial segment of `hay`. -/
def startsWith : JSString → JSString → Bool
  | _, [] => true
  | [], _ :: _ => false
  | a :: x, b :: y => a == b && startsWith x y

/-- The method `String.prototype.includes(needle)` (search from position 0): some suffix of
the receiver starts with `needle`. -/
def includes : JSString → JSString → Bool
  | [], needle => startsWith [] needle
  | a :: x, needle => startsWith (a :: x) needle || includes x needle

/-- Lower-casing of the Basic Latin letters `A`..`Z`; every other code unit is kept. On
strings of Basic Latin code units this is `String.prototype.toLowerCase`. -/
def asciiLowerCase (s : JSString) : JSString :=
  s.map fun u => if 65 ≤ u ∧ u ≤ 90 then u + 32 else u

/-! ## Records and view state -/

/-- A record object: its own enumerable string-valued properties, in insertion order. -/
abbrev Record := List (JSString × JSString)

/-- Property read `student[key]`; `none` stands for `undefined`. -/
def Record.get : Record → JSString → Option JSString
  | [], _ => none
  | (k, v) :: rest, key => if k = key then some v else Record.get rest key

/-- The values listed by `Object.values(student)`. -/
def objectValues (student : Record) : List JSString :=
  student.map Prod.snd

/-- The object literal `{ ...student, [field]: value }`: an existing property keeps its place
and takes the new value, a missing one is added last. -/
def Record.set : Record → JSString → JSString → Record
  | [], field, value => [(field, value)]
  | (k, v) :: rest, field, value =>
    if k = field then (k, value) :: rest else (k, v) :: Record.set rest field value

/-- The two values of `sortConfig.direction`. -/
inductive Direction where
  | ascending
  | descending
  deriving DecidableEq

/-- The state slice `sortConfig`; `key = none` is the initial `null`. -/
structure SortConfig where
  key : Option JSString
  direction : Direction
  deriving DecidableEq

/-- The state slice `editingCell`; `none` is `null`. -/
structure EditingCell where
  rowId : Option JSString
  field : Option JSString
  deriving DecidableEq

/-- The React state of `StudentDashboard`, one field per `useState` hook.
`studentsPerPage` has no setter and is the constant below. -/
structure State where
  students : List Record
  sortConfig : SortConfig
  searchTerm : JSString
  expandedRow : Option JSString
  editingCell : EditingCell
  currentPage : Nat
  deriving DecidableEq

/-- The value of `useState(5)`, never changed. -/
def studentsPerPage : Nat := 5

/-- One fixture object literal, with the property order of the source. -/
def mkStudent (id name className grade studentId email lastLogin : String) : Record :=
  [(str "id", str id), (str "name", str name), (str "className", str className),
   (str "grade", str grade), (str "studentId", str studentId), (str "email", str email),
   (str "lastLogin", str lastLogin)]

/-- The seed collection `initialStudents`. -/
def initialStudents : List Record :=
  [ mkStudent "001" "Alice Johnson" "US History" "A" "ST12345" "alice@example.com" "2024-08-01",
    mkStudent "002" "Bob Smith" "Civics" "B" "ST12346" "bob@example.com" "2024-08-02",
    mkStudent "003" "Charlie Brown" "English Language" "A-" "ST12347" "charlie@example.com"
      "2024-08-03",
    mkStudent "004" "Diana Ross" "US Government" "B+" "ST12348" "diana@example.com" "2024-08-04",
    mkStudent "005" "Ethan Hunt" "US History" "C" "ST12349" "ethan@example.com" "2024-08-05",
    mkStudent "006" "Fiona Gallagher" "Civics" "A" "ST12350" "fiona@example.com" "2024-08-06",
    mkStudent "007" "George Michael" "English Language" "B-" "ST12351" "george@example.com"
      "2024-08-07",
    mkStudent "008" "Hannah Montana" "US Government" "A+" "ST12352" "hannah@example.com"
      "2024-08-08" ]

/-- The state of the first render. -/
def initialState : State :=
  { students := initialStudents
    sortConfig := { key := none, direction := Direction.ascending }
    searchTerm := []
    expandedRow := none
    editingCell := { rowId := none, field := none }
    currentPage := 1 }

/-! ## Sorting -/

/-- The operator `<` on two property reads. Two strings are compared by code units; when an
operand is `undefined` it converts to `NaN` and the comparison is `false`. -/
def jsLt : Option JSString → Option JSString → Bool
  | some x, some y => stringLt x y
  | _, _ => false

/-- The comparator passed to `sort` by `sortData`. -/
def compareStudents (key : JSString) (direction : Direction) (a b : Record) : Int :=
  if jsLt (a.get key) (b.get key) then
    (if direction = Direction.ascending then -1 else 1)
  else if jsLt (b.get key) (a.get key) then
    (if direction = Direction.ascending then 1 else -1)
  else 0

/-- Insertion of `a` in front of the first element it does not have to follow. -/
def insertSorted {α : Type} (cmp : α → α → Int) (a : α) : List α → List α
  | [] => [a]
  | b :: l => if cmp a b ≤ 0 then a :: b :: l else b :: insertSorted cmp a l

/-- The method `Array.prototype.sort(cmp)` on a copy of the array. ECMAScript requires the sort
to be stable, which for a consistent comparator fixes the result; it is computed here by a
stable insertion sort. For an inconsistent comparator the order is left to the engine, and
nothing below relies on the value of `sort` there beyond its being a permutation. -/
def sort {α : Type} (cmp : α → α → Int) : List α → List α
  | [] => []
  | a :: l => insertSorted cmp a (sort cmp l)

/-- The handler `sortData(key)`. -/
def sortData (s : State) (key : JSString) : State :=
  let direction :=
    if s.sortConfig.key = some key ∧ s.sortConfig.direction = Direction.ascending then
      Direction.descending
    else Direction.ascending
  { s with
    sortConfig := { key := some key, direction := direction }
    students := sort (compareStudents key direction) s.students }

/-! ## Filtering -/

/-- The predicate of the `filter` call: some value, lower-cased, includes the lower-cased term.
(`value.toString()` is the identity on strings.) -/
def matchesSearch (toLowerCase : JSString → JSString) (searchTerm : JSString)
    (student : Record) : Bool :=
  (objectValues student).any fun value => includes (toLowerCase value) (toLowerCase searchTerm)

/-- The derived value `filteredStudents`. -/
def filteredStudents (toLowerCase : JSString → JSString) (s : State) : List Record :=
  s.students.filter (matchesSearch toLowerCase s.searchTerm)

/-! ## Pagination -/

/-- The method `Array.prototype.slice(start, stop)`, negative arguments counting from the end. -/
def slice {α : Type} (xs : List α) (start stop : Int) : List α :=
  let len : Int := xs.length
  let k := if start < 0 then max (len + start) 0 else min start len
  let final := if stop < 0 then max (len + stop) 0 else min stop len
  (xs.drop k.toNat).take (final - k).toNat

/-- The index `indexOfLastStudent`. -/
def indexOfLastStudent (s : State) : Int :=
  (s.currentPage : Int) * (studentsPerPage : Int)

/-- The index `indexOfFirstStudent`. -/
def indexOfFirstStudent (s : State) : Int :=
  indexOfLastStudent s - (studentsPerPage : Int)

/-- The derived value `currentStudents`. -/
def currentStudents (toLowerCase : JSString → JSString) (s : State) : List Record :=
  slice (filteredStudents toLowerCase s) (indexOfFirstStudent s) (indexOfLastStudent s)

/-- The expression `Math.ceil(n / d)` for array lengths `n` and a positive `d`. -/
def mathCeilDiv (n d : Nat) : Nat :=
  if n % d = 0 then n / d else n / d + 1

/-- The page numbers of the rendered buttons: `Array.from` with length
`Math.ceil(filteredStudents.length / studentsPerPage)`, button `i` paginating to `i + 1`. -/
def pageButtons (toLowerCase : JSString → JSString) (s : State) : List Nat :=
  (List.range (mathCeilDiv (filteredStudents toLowerCase s).length studentsPerPage)).map
    fun i => i + 1

/-- The handler `paginate(pageNumber)`. -/
def paginate (s : State) (pageNumber : Nat) : State :=
  { s with currentPage := pageNumber }

/-! ## Search, edit and expansion handlers -/

/-- The state setter called by the search input. -/
def setSearchTerm (s : State) (value : JSString) : State :=
  { s with searchTerm := value }

/-- The effect with dependency list `[searchTerm]`: after a render whose `searchTerm` differs
from the previous render, `setCurrentPage(1)`. -/
def useEffect (previous next : State) : State :=
  if next.searchTerm = previous.searchTerm then next else { next with currentPage := 1 }

/-- The search input `onChange` transition: the setter followed by the effect. -/
def searchChange (s : State) (value : JSString) : State :=
  useEffect s (setSearchTerm s value)

/-- The handler `handleEdit(rowId, field, value)`. -/
def handleEdit (s : State) (rowId field value : JSString) : State :=
  { s with
    students := s.students.map fun student =>
      if student.get (str "id") = some rowId then student.set field value else student
    editingCell := { rowId := none, field := none } }

/-- The state setter `setEditingCell`. -/
def setEditingCell (s : State) (cell : EditingCell) : State :=
  { s with editingCell := cell }

/-- The `onClick` of the details button of row `id`. -/
def toggleExpandedRow (s : State) (id : JSString) : State :=
  { s with expandedRow := if s.expandedRow = some id then none else some id }

/-! ## The view as a transition system -/

/-- The user events of the view. `edit rowId value` is a change event of the name input of row
`rowId`, that is `handleEdit(rowId, 'name', value)`; `editStart rowId` is a click on the name
of row `rowId`; `editBlur` is the name input losing focus. -/
inductive Event where
  | search (value : JSString)
  | sortBy (key : JSString)
  | page (pageNumber : Nat)
  | edit (rowId value : JSString)
  | editStart (rowId : JSString)
  | editBlur
  | expand (rowId : JSString)
  deriving DecidableEq

/-- Whether row `rowId` is one of the rows rendered from `currentStudents`. -/
def isVisible (toLowerCase : JSString → JSString) (s : State) (rowId : JSString) : Bool :=
  (currentStudents toLowerCase s).any fun student => student.get (str "id") == some rowId

/-- Whether the rendered view offers the event: a page button exists for the page, the row of a
row event is rendered, and the name input exists only for the cell under the edit cursor. -/
def Event.enabled (toLowerCase : JSString → JSString) (s : State) : Event → Bool
  | Event.search _ => true
  | Event.sortBy _ => true
  | Event.page pageNumber => decide (pageNumber ∈ pageButtons toLowerCase s)
  | Event.edit rowId _ =>
    isVisible toLowerCase s rowId &&
      decide (s.editingCell = { rowId := some rowId, field := some (str "name") })
  | Event.editStart rowId => isVisible toLowerCase s rowId
  | Event.editBlur => true
  | Event.expand rowId => isVisible toLowerCase s rowId

/-- The handler each event runs. -/
def Event.apply (s : State) : Event → State
  | Event.search value => searchChange s value
  | Event.sortBy key => sortData s key
  | Event.page pageNumber => paginate s pageNumber
  | Event.edit rowId value => handleEdit s rowId (str "name") value
  | Event.editStart rowId => setEditingCell s { rowId := some rowId, field := some (str "name") }
  | Event.editBlur => setEditingCell s { rowId := none, field := none }
  | Event.expand rowId => toggleExpandedRow s rowId

/-- The state after a sequence of events, `none` when one of them is not offered by the view
at the time it happens. -/
def run (toLowerCase : JSString → JSString) : State → List Event → Option State
  | s, [] => some s
  | s, e :: rest => if e.enabled toLowerCase s then run toLowerCase (e.apply s) rest else none

/-- The state after a sequence of handler calls, whether or not the rendered view offers
them. -/
def runAll (s : State) (events : List Event) : State :=
  events.foldl Event.apply s

/-! ## Header clicks -/

/-- The method `String.prototype.replace(pattern, replacement)` for a string pattern and a
replacement without `$` patterns: the first occurrence of `pattern` is replaced. -/
def replace : JSString → JSString → JSString → JSString
  | [], pattern, replacement => if pattern = [] then replacement else []
  | a :: x, pattern, replacement =>
    if startsWith (a :: x) pattern then replacement ++ (a :: x).drop pattern.length
    else a :: replace x pattern replacement

/-- The column labels mapped over by the header row. -/
def headers : List JSString :=
  [str "Student ID", str "Name", str "Class Name", str "Grade"]

/-- The argument of `sortData` in the header `onClick`:
`header.toLowerCase().replace(' ', '')`. -/
def headerSortKey (toLowerCase : JSString → JSString) (header : JSString) : JSString :=
  replace (toLowerCase header) (str " ") (str "")

/-! ## Specification vocabulary -/

/-- The matching predicate in the words of the specification: at least one field value,
lower-cased, contains the lower-cased term as a substring. -/
def MatchesTerm (toLowerCase : JSString → JSString) (term : JSString) (r : Record) : Prop :=
  ∃ field ∈ r, toLowerCase term <:+: toLowerCase field.2

/-- The records are in non-decreasing order of field `key` under the string comparison `<`. -/
def NonDecreasing (key : JSString) (l : List Record) : Prop :=
  l.Pairwise fun a b => jsLt (b.get key) (a.get key) = false

/-- The records are in non-increasing order of field `key` under the string comparison `<`. -/
def NonIncreasing (key : JSString) (l : List Record) : Prop :=
  l.Pairwise fun a b => jsLt (a.get key) (b.get key) = false

/-- The records of `l` whose field `key` reads `v`, in the order they have in `l`. -/
def withValue (key : JSString) (v : Option JSString) (l : List Record) : List Record :=
  l.filter fun r => decide (r.get key = v)

/-- The first index of page `currentPage` in the words of the specification:
`(currentPage - 1) * pageSize`. -/
def firstIndex (currentPage : Nat) : Nat :=
  (currentPage - 1) * studentsPerPage

/-- The end index of page `currentPage` in the words of the specification:
`min(firstIndex + pageSize, filteredCount)`. -/
def lastIndex (currentPage filteredCount : Nat) : Nat :=
  min (firstIndex currentPage + studentsPerPage) filteredCount

end Dashboard

/-! ## The payment page -/

namespace PaymentPage

open Dashboard

/-- One plan card of `src/app/Payment/page.jsx`: the value its radio input passes to
`setPlan`, its title and the price it displays. -/
structure PlanCard where
  value : JSString
  title : JSString
  price : JSString
  deriving DecidableEq

/-- The two plan cards, in source order. -/
def planCards : List PlanCard :=
  [ { value := str "monthly", title := str "Monthly Plan", price := str "$15.00" },
    { value := str "annual", title := str "Annual Plan", price := str "$199.99" } ]

/-- The initial value of the state `plan`. -/
def initialPlan : JSString := str "monthly"

/-- The radio input `onChange` of a card: `setPlan(card.value)`. -/
def selectPlan (card : PlanCard) : JSString :=
  card.value

/-- The amount in the text of the Pay button: `plan === 'monthly' ? '$19.99' : '$199.99'`. -/
def payButtonAmount (plan : JSString) : JSString :=
  if plan = str "monthly" then str "$19.99" else str "$199.99"

end PaymentPage

namespace Dashboard

/-! ## Facts about strings -/

theorem startsWith_iff (hay needle : JSString) :
    startsWith hay needle = true ↔ needle <+: hay := by
  induction hay generalizing needle with
  | nil =>
    cases needle with
    | nil => simp [startsWith]
    | cons b y => simp [startsWith]
  | cons a x ih =>
    cases needle with
    | nil => simp [startsWith]
    | cons b y =>
      simp only [startsWith, Bool.and_eq_true, beq_iff_eq, ih, List.cons_prefix_cons]
      constructor
      · rintro ⟨h1, h2⟩
        exact ⟨h1.symm, h2⟩
      · rintro ⟨h1, h2⟩
        exact ⟨h1.symm, h2⟩

theorem includes_iff (hay needle : JSString) :
    includes hay needle = true ↔ needle <:+: hay := by
  induction hay with
  | nil =>
    simp only [includes, startsWith_iff, List.prefix_nil, List.infix_nil]
  | cons a x ih =>
    simp only [includes, Bool.or_eq_true, startsWith_iff, ih, List.infix_cons_iff]

theorem includes_nil (hay : JSString) : includes hay [] = true :=
  (includes_iff hay []).2 List.nil_infix

theorem stringLt_irrefl (x : JSString) : stringLt x x = false := by
  induction x with
  | nil => rfl
  | cons a x ih => simp [stringLt, ih]

theorem stringLt_trans {x y z : JSString} (h1 : stringLt x y = true)
    (h2 : stringLt y z = true) : stringLt x z = true := by
  induction x generalizing y z with
  | nil =>
    cases y with
    | nil => simp [stringLt] at h1
    | cons b y =>
      cases z with
      | nil => simp [stringLt] at h2
      | cons c z => simp [stringLt]
  | cons a x ih =>
    cases y with
    | nil => simp [stringLt] at h1
    | cons b y =>
      cases z with
      | nil => simp [stringLt] at h2
      | cons c z =>
        simp only [stringLt] at h1 h2 ⊢
        by_cases hab : a < b
        · by_cases hbc : b < c
          · have : a < c := lt_trans hab hbc
            simp [this]
          · by_cases hcb : c < b
            · simp [hbc, hcb] at h2
            · have : b = c := by omega
              subst this
              simp [hab]
        · by_cases hba : b < a
          · simp [hab, hba] at h1
          · have hab2 : a = b := by omega
            subst hab2
            simp only [lt_self_iff_false, if_false] at h1
            by_cases hac : a < c
            · simp [hac]
            · by_cases hca : c < a
              · simp [hac, hca] at h2
              · simp only [hac, hca, if_false] at h2 ⊢
                exact ih h1 h2

theorem stringLt_trichotomy {x y : JSString} (h1 : stringLt x y = false)
    (h2 : stringLt y x = false) : x = y := by
  induction x generalizing y with
  | nil =>
    cases y with
    | nil => rfl
    | cons b y => simp [stringLt] at h1
  | cons a x ih =>
    cases y with
    | nil => simp [stringLt] at h2
    | cons b y =>
      simp only [stringLt] at h1 h2
      by_cases hab : a < b
      · simp [hab] at h1
      · by_cases hba : b < a
        · simp [hba] at h2
        · have : a = b := by omega
          subst this
          simp only [lt_self_iff_false, if_false] at h1 h2
          rw [ih h1 h2]

theorem stringLt_asymm {x y : JSString} (h : stringLt x y = true) : stringLt y x = false := by
  cases hyx : stringLt y x with
  | false => rfl
  | true =>
    have := stringLt_trans h hyx
    rw [stringLt_irrefl] at this
    exact absurd this (by decide)

/-! ## Facts about `jsLt` and the comparator -/

theorem jsLt_irrefl (x : Option JSString) : jsLt x x = false := by
  cases x with
  | none => rfl
  | some x => exact stringLt_irrefl x

theorem jsLt_asymm {x y : Option JSString} (h : jsLt x y = true) : jsLt y x = false := by
  cases x with
  | none => simp [jsLt] at h
  | some x =>
    cases y with
    | none => simp [jsLt] at h
    | some y => exact stringLt_asymm h

/-- On defined operands, "not greater" is transitive. -/
theorem jsLt_not_trans {x y z : Option JSString} (hx : x.isSome) (hy : y.isSome)
    (hz : z.isSome) (h1 : jsLt y x = false) (h2 : jsLt z y = false) : jsLt z x = false := by
  obtain ⟨x, rfl⟩ := Option.isSome_iff_exists.1 hx
  obtain ⟨y, rfl⟩ := Option.isSome_iff_exists.1 hy
  obtain ⟨z, rfl⟩ := Option.isSome_iff_exists.1 hz
  simp only [jsLt] at h1 h2 ⊢
  cases hzx : stringLt z x with
  | false => rfl
  | true =>
    cases hxy : stringLt x y with
    | true =>
      have := stringLt_trans hzx hxy
      rw [h2] at this
      exact absurd this (by decide)
    | false =>
      have hxy2 : x = y := stringLt_trichotomy hxy h1
      subst hxy2
      rw [h2] at hzx
      exact absurd hzx (by decide)

/-- On defined operands, neither being less means equality. -/
theorem jsLt_trichotomy {x y : Option JSString} (hx : x.isSome) (hy : y.isSome)
    (h1 : jsLt x y = false) (h2 : jsLt y x = false) : x = y := by
  obtain ⟨x, rfl⟩ := Option.isSome_iff_exists.1 hx
  obtain ⟨y, rfl⟩ := Option.isSome_iff_exists.1 hy
  simp only [jsLt] at h1 h2
  rw [stringLt_trichotomy h1 h2]

theorem compare_ascending_le (key : JSString) (a b : Record) :
    compareStudents key Direction.ascending a b ≤ 0 ↔ jsLt (b.get key) (a.get key) = false := by
  unfold compareStudents
  cases hab : jsLt (a.get key) (b.get key) with
  | true => simp [jsLt_asymm hab]
  | false =>
    cases hba : jsLt (b.get key) (a.get key) with
    | true => simp
    | false => simp

theorem compare_descending_le (key : JSString) (a b : Record) :
    compareStudents key Direction.descending a b ≤ 0 ↔
      jsLt (a.get key) (b.get key) = false := by
  unfold compareStudents
  cases hab : jsLt (a.get key) (b.get key) with
  | true => simp
  | false =>
    cases hba : jsLt (b.get key) (a.get key) with
    | true => simp
    | false => simp

theorem compare_eq_key (key : JSString) (direction : Direction) (a b : Record)
    (h : a.get key = b.get key) : compareStudents key direction a b ≤ 0 := by
  unfold compareStudents
  rw [h, jsLt_irrefl]
  simp

/-! ## Facts about `sort` -/

section SortFacts

variable {α : Type}

theorem insertSorted_perm (cmp : α → α → Int) (a : α) (l : List α) :
    (insertSorted cmp a l).Perm (a :: l) := by
  induction l with
  | nil => exact List.Perm.refl _
  | cons b l ih =>
    unfold insertSorted
    split
    · exact List.Perm.refl _
    · exact (List.Perm.cons b ih).trans (List.Perm.swap a b l)

theorem sort_perm (cmp : α → α → Int) (l : List α) : (sort cmp l).Perm l := by
  induction l with
  | nil => exact List.Perm.refl _
  | cons a l ih =>
    exact (insertSorted_perm cmp a (sort cmp l)).trans (List.Perm.cons a ih)

theorem mem_sort (cmp : α → α → Int) (l : List α) (x : α) : x ∈ sort cmp l ↔ x ∈ l :=
  (sort_perm cmp l).mem_iff

theorem insertSorted_pairwise (cmp : α → α → Int) (S : α → Prop)
    (htotal : ∀ a b, cmp a b ≤ 0 ∨ cmp b a ≤ 0)
    (htrans : ∀ a b c, S a → S b → S c → cmp a b ≤ 0 → cmp b c ≤ 0 → cmp a c ≤ 0)
    (a : α) (l : List α) (ha : S a) (hl : ∀ x ∈ l, S x)
    (hs : l.Pairwise fun x y => cmp x y ≤ 0) :
    (insertSorted cmp a l).Pairwise fun x y => cmp x y ≤ 0 := by
  induction l with
  | nil => simp [insertSorted]
  | cons b l ih =>
    have hb : S b := hl b (List.mem_cons_self b l)
    have hl2 : ∀ x ∈ l, S x := fun x hx => hl x (List.mem_cons_of_mem b hx)
    rw [List.pairwise_cons] at hs
    unfold insertSorted
    split
    · rename_i hab
      refine List.Pairwise.cons ?_ (List.Pairwise.cons hs.1 hs.2)
      intro x hx
      rcases List.mem_cons.1 hx with rfl | hx
      · exact hab
      · exact htrans a b x ha hb (hl2 x hx) hab (hs.1 x hx)
    · rename_i hab
      refine List.Pairwise.cons ?_ (ih hl2 hs.2)
      intro x hx
      rcases List.mem_cons.1 ((insertSorted_perm cmp a l).mem_iff.1 hx) with rfl | hx
      · exact (htotal x b).resolve_left hab
      · exact hs.1 x hx

theorem sort_pairwise (cmp : α → α → Int) (S : α → Prop)
    (htotal : ∀ a b, cmp a b ≤ 0 ∨ cmp b a ≤ 0)
    (htrans : ∀ a b c, S a → S b → S c → cmp a b ≤ 0 → cmp b c ≤ 0 → cmp a c ≤ 0)
    (l : List α) (hl : ∀ x ∈ l, S x) :
    (sort cmp l).Pairwise fun x y => cmp x y ≤ 0 := by
  induction l with
  | nil => simp [sort]
  | cons a l ih =>
    have hl2 : ∀ x ∈ l, S x := fun x hx => hl x (List.mem_cons_of_mem a hx)
    exact insertSorted_pairwise cmp S htotal htrans a (sort cmp l)
      (hl a (List.mem_cons_self a l)) (fun x hx => hl2 x ((mem_sort cmp l x).1 hx)) (ih hl2)

/-- Stability: a class of elements that the comparator never separates keeps its order. -/
theorem insertSorted_filter (cmp : α → α → Int) (p : α → Bool)
    (hp : ∀ a b, p a = true → p b = true → cmp a b ≤ 0) (a : α) (l : List α) :
    (insertSorted cmp a l).filter p = (a :: l).filter p := by
  induction l with
  | nil => rfl
  | cons b l ih =>
    unfold insertSorted
    split
    · rfl
    · rename_i hab
      rw [List.filter_cons, ih]
      cases hpa : p a with
      | false => simp [List.filter_cons, hpa]
      | true =>
        cases hpb : p b with
        | false => simp [List.filter_cons, hpa, hpb]
        | true => exact absurd (hp a b hpa hpb) hab

theorem sort_filter (cmp : α → α → Int) (p : α → Bool)
    (hp : ∀ a b, p a = true → p b = true → cmp a b ≤ 0) (l : List α) :
    (sort cmp l).filter p = l.filter p := by
  induction l with
  | nil => rfl
  | cons a l ih =>
    show (insertSorted cmp a (sort cmp l)).filter p = (a :: l).filter p
    rw [insertSorted_filter cmp p hp, List.filter_cons, List.filter_cons, ih]

/-- A list that is sorted for `r` is determined by its classes of equal keys: two sorted lists
with the same sub-list of every key value are equal. -/
theorem eq_of_pairwise_of_classes {β : Type} [DecidableEq β] (r : α → α → Prop)
    (key : α → β) (hrefl : ∀ a, r a a) (l1 l2 : List α)
    (hanti : ∀ a ∈ l1, ∀ b ∈ l1, r a b → r b a → key a = key b)
    (h1 : l1.Pairwise r) (h2 : l2.Pairwise r)
    (hc : ∀ v, l1.filter (fun x => decide (key x = v)) =
      l2.filter (fun x => decide (key x = v))) :
    l1 = l2 := by
  induction l1 generalizing l2 with
  | nil =>
    cases l2 with
    | nil => rfl
    | cons b t2 =>
      have := hc (key b)
      simp at this
  | cons a t1 ih =>
    cases l2 with
    | nil =>
      have := hc (key a)
      simp at this
    | cons b t2 =>
      have hb1 : b ∈ a :: t1 := by
        have hmem : b ∈ (b :: t2).filter (fun x => decide (key x = key b)) := by simp
        rw [← hc (key b)] at hmem
        exact (List.mem_filter.1 hmem).1
      have ha2 : a ∈ b :: t2 := by
        have hmem : a ∈ (a :: t1).filter (fun x => decide (key x = key a)) := by simp
        rw [hc (key a)] at hmem
        exact (List.mem_filter.1 hmem).1
      rw [List.pairwise_cons] at h1 h2
      have hab : r a b := by
        rcases List.mem_cons.1 hb1 with rfl | hb
        · exact hrefl _
        · exact h1.1 b hb
      have hba : r b a := by
        rcases List.mem_cons.1 ha2 with rfl | ha
        · exact hrefl _
        · exact h2.1 a ha
      have hk : key a = key b := hanti a (List.mem_cons_self a t1) b hb1 hab hba
      have hhead := hc (key a)
      simp only [List.filter_cons, decide_True, if_true, hk] at hhead
      have heq : a = b := (List.cons.inj hhead).1
      subst heq
      have htail : ∀ v, t1.filter (fun x => decide (key x = v)) =
          t2.filter (fun x => decide (key x = v)) := by
        intro v
        have := hc v
        simp only [List.filter_cons] at this
        by_cases hv : decide (key a = v) = true
        · simp only [hv, if_true] at this
          exact (List.cons.inj this).2
        · simp only [hv] at this
          exact this
      rw [ih t2 (fun x hx y hy => hanti x (List.mem_cons_of_mem a hx) y
        (List.mem_cons_of_mem a hy)) h1.2 h2.2 htail]

end SortFacts

/-! ## Sorting records by a field -/

theorem compare_total (key : JSString) (direction : Direction) (a b : Record) :
    compareStudents key direction a b ≤ 0 ∨ compareStudents key direction b a ≤ 0 := by
  cases direction with
  | ascending =>
    rw [compare_ascending_le, compare_ascending_le]
    cases h : jsLt (b.get key) (a.get key) with
    | false => exact Or.inl rfl
    | true => exact Or.inr (jsLt_asymm h)
  | descending =>
    rw [compare_descending_le, compare_descending_le]
    cases h : jsLt (a.get key) (b.get key) with
    | false => exact Or.inl rfl
    | true => exact Or.inr (jsLt_asymm h)

theorem sort_ascending_nonDecreasing (key : JSString) (l : List Record)
    (hl : ∀ r ∈ l, (r.get key).isSome) :
    NonDecreasing key (sort (compareStudents key Direction.ascending) l) := by
  have h := sort_pairwise (compareStudents key Direction.ascending)
    (fun r => (r.get key).isSome = true) (compare_total key Direction.ascending)
    (by
      intro a b c ha hb hc hab hbc
      rw [compare_ascending_le] at hab hbc ⊢
      exact jsLt_not_trans ha hb hc hab hbc)
    l hl
  exact h.imp fun {a b} hab => (compare_ascending_le key a b).1 hab

theorem sort_descending_nonIncreasing (key : JSString) (l : List Record)
    (hl : ∀ r ∈ l, (r.get key).isSome) :
    NonIncreasing key (sort (compareStudents key Direction.descending) l) := by
  have h := sort_pairwise (compareStudents key Direction.descending)
    (fun r => (r.get key).isSome = true) (compare_total key Direction.descending)
    (by
      intro a b c ha hb hc hab hbc
      rw [compare_descending_le] at hab hbc ⊢
      exact jsLt_not_trans hc hb ha hbc hab)
    l hl
  exact h.imp fun {a b} hab => (compare_descending_le key a b).1 hab

theorem sort_withValue (key : JSString) (direction : Direction) (v : Option JSString)
    (l : List Record) :
    withValue key v (sort (compareStudents key direction) l) = withValue key v l := by
  unfold withValue
  apply sort_filter
  intro a b ha hb
  apply compare_eq_key
  rw [of_decide_eq_true ha, of_decide_eq_true hb]

theorem nonDecreasing_unique (key : JSString) (l1 l2 : List Record)
    (hl : ∀ r ∈ l1, (r.get key).isSome) (h1 : NonDecreasing key l1)
    (h2 : NonDecreasing key l2) (hc : ∀ v, withValue key v l1 = withValue key v l2) :
    l1 = l2 := by
  unfold NonDecreasing at h1 h2
  unfold withValue at hc
  exact eq_of_pairwise_of_classes (fun a b : Record => jsLt (b.get key) (a.get key) = false)
    (fun r : Record => r.get key) (fun a => jsLt_irrefl _) l1 l2
    (fun a ha b hb hab hba => jsLt_trichotomy (hl a ha) (hl b hb) hba hab) h1 h2 hc

theorem nonIncreasing_unique (key : JSString) (l1 l2 : List Record)
    (hl : ∀ r ∈ l1, (r.get key).isSome) (h1 : NonIncreasing key l1)
    (h2 : NonIncreasing key l2) (hc : ∀ v, withValue key v l1 = withValue key v l2) :
    l1 = l2 := by
  unfold NonIncreasing at h1 h2
  unfold withValue at hc
  exact eq_of_pairwise_of_classes (fun a b : Record => jsLt (a.get key) (b.get key) = false)
    (fun r : Record => r.get key) (fun a => jsLt_irrefl _) l1 l2
    (fun a ha b hb hab hba => jsLt_trichotomy (hl a ha) (hl b hb) hab hba) h1 h2 hc

theorem sortData_of_ne (s : State) (key : JSString) (h : s.sortConfig.key ≠ some key) :
    sortData s key =
      { s with
        sortConfig := { key := some key, direction := Direction.ascending }
        students := sort (compareStudents key Direction.ascending) s.students } := by
  simp [sortData, h]

theorem sortData_of_ascending (s : State) (key : JSString)
    (h : s.sortConfig = { key := some key, direction := Direction.ascending }) :
    sortData s key =
      { s with
        sortConfig := { key := some key, direction := Direction.descending }
        students := sort (compareStudents key Direction.descending) s.students } := by
  simp [sortData, h]

theorem sortData_of_descending (s : State) (key : JSString)
    (h : s.sortConfig = { key := some key, direction := Direction.descending }) :
    sortData s key =
      { s with
        sortConfig := { key := some key, direction := Direction.ascending }
        students := sort (compareStudents key Direction.ascending) s.students } := by
  simp [sortData, h]

theorem sortData_students (s : State) (key : JSString) :
    (sortData s key).students =
      sort (compareStudents key (sortData s key).sortConfig.direction) s.students := rfl

/-- C2. When `key` is a field of every record, the collection after `sortData(key)` is a
permutation of the collection before it, in non-decreasing order of the field when the new
direction is ascending and in non-increasing order when it is descending, and for every value
the records with that value are in the order they had before the call (the sort is stable). -/
theorem sortData_sorted_stable_perm (s : State) (key : JSString)
    (hkey : ∀ r ∈ s.students, (r.get key).isSome) :
    (sortData s key).students.Perm s.students ∧
    ((sortData s key).sortConfig.direction = Direction.ascending →
      NonDecreasing key (sortData s key).students) ∧
    ((sortData s key).sortConfig.direction = Direction.descending →
      NonIncreasing key (sortData s key).students) ∧
    (∀ v, withValue key v (sortData s key).students = withValue key v s.students) := by
  refine ⟨?_, ?_, ?_, ?_⟩
  · rw [sortData_students]
    exact sort_perm _ _
  · intro hd
    rw [sortData_students, hd]
    exact sort_ascending_nonDecreasing key s.students hkey
  · intro hd
    rw [sortData_students, hd]
    exact sort_descending_nonIncreasing key s.students hkey
  · intro v
    rw [sortData_students]
    exact sort_withValue key _ v s.students

/-- Witness for C2: the fixture sorted by grade a second time, which gives the descending
direction. -/
theorem sortData_sorted_stable_perm_witness :
    (∀ r ∈ (sortData initialState (str "grade")).students, (r.get (str "grade")).isSome) ∧
    (sortData (sortData initialState (str "grade")) (str "grade")).sortConfig.direction =
      Direction.descending ∧
    (sortData (sortData initialState (str "grade")) (str "grade")).students.Perm
      (sortData initialState (str "grade")).students ∧
    NonIncreasing (str "grade")
      (sortData (sortData initialState (str "grade")) (str "grade")).students :=
  ⟨by decide, by decide,
    (sortData_sorted_stable_perm (sortData initialState (str "grade")) (str "grade")
      (by decide)).1,
    (sortData_sorted_stable_perm (sortData initialState (str "grade")) (str "grade")
      (by decide)).2.2.1 (by decide)⟩

/-- C3. The directive after `sortData(key)`: ascending on `key` becomes descending on `key`,
descending on `key` becomes ascending on `key`, and any other active key, or none, gives
ascending on `key` whatever the previous direction. -/
theorem sortData_directive (s : State) (key : JSString) :
    (s.sortConfig = { key := some key, direction := Direction.ascending } →
      (sortData s key).sortConfig = { key := some key, direction := Direction.descending }) ∧
    (s.sortConfig = { key := some key, direction := Direction.descending } →
      (sortData s key).sortConfig = { key := some key, direction := Direction.ascending }) ∧
    (s.sortConfig.key ≠ some key →
      (sortData s key).sortConfig = { key := some key, direction := Direction.ascending }) := by
  refine ⟨?_, ?_, ?_⟩
  · intro h
    rw [sortData_of_ascending s key h]
  · intro h
    rw [sortData_of_descending s key h]
  · intro h
    rw [sortData_of_ne s key h]

/-- Witness for C3: three clicks on the grade header from the initial state. -/
theorem sortData_directive_witness :
    (sortData initialState (str "grade")).sortConfig =
      { key := some (str "grade"), direction := Direction.ascending } ∧
    (sortData (sortData initialState (str "grade")) (str "grade")).sortConfig =
      { key := some (str "grade"), direction := Direction.descending } ∧
    (sortData (sortData (sortData initialState (str "grade")) (str "grade"))
      (str "grade")).sortConfig =
      { key := some (str "grade"), direction := Direction.ascending } :=
  ⟨(sortData_directive initialState (str "grade")).2.2 (by decide),
    (sortData_directive (sortData initialState (str "grade")) (str "grade")).1 (by decide),
    (sortData_directive (sortData (sortData initialState (str "grade")) (str "grade"))
      (str "grade")).2.1 (by decide)⟩

/-! ## Repeated clicks on one header -/

theorem sortData_twice_eq (s : State) (key : JSString) (hne : s.sortConfig.key ≠ some key) :
    sortData (sortData s key) key =
      { s with
        sortConfig := { key := some key, direction := Direction.descending }
        students := sort (compareStudents key Direction.descending)
          (sort (compareStudents key Direction.ascending) s.students) } := by
  rw [sortData_of_ne s key hne, sortData_of_ascending _ key rfl]

theorem sortData_thrice_eq (s : State) (key : JSString) (hne : s.sortConfig.key ≠ some key) :
    sortData (sortData (sortData s key) key) key =
      { s with
        sortConfig := { key := some key, direction := Direction.ascending }
        students := sort (compareStudents key Direction.ascending)
          (sort (compareStudents key Direction.descending)
            (sort (compareStudents key Direction.ascending) s.students)) } := by
  rw [sortData_twice_eq s key hne, sortData_of_descending _ key rfl]

theorem sort_ascending_sort_descending (key : JSString) (l : List Record)
    (hl : ∀ r ∈ l, (r.get key).isSome) (hs : NonDecreasing key l) :
    sort (compareStudents key Direction.ascending)
      (sort (compareStudents key Direction.descending) l) = l := by
  have hmem : ∀ r ∈ sort (compareStudents key Direction.descending) l, (r.get key).isSome :=
    fun r hr => hl r ((mem_sort _ l r).1 hr)
  apply nonDecreasing_unique key
  · intro r hr
    exact hmem r ((mem_sort _ _ r).1 hr)
  · exact sort_ascending_nonDecreasing key _ hmem
  · exact hs
  · intro v
    rw [sort_withValue, sort_withValue]

theorem filter_length_le_one_of_nodup {α β : Type} [DecidableEq β] (f : α → β) (v : β)
    (l : List α) (h : (l.map f).Nodup) : (l.filter fun x => decide (f x = v)).length ≤ 1 := by
  induction l with
  | nil => simp
  | cons a l ih =>
    rw [List.map_cons, List.nodup_cons] at h
    rw [List.filter_cons]
    by_cases hv : f a = v
    · have hnil : l.filter (fun x => decide (f x = v)) = [] := by
        rw [List.filter_eq_nil_iff]
        intro x hx hfx
        apply h.1
        rw [hv, ← of_decide_eq_true hfx]
        exact List.mem_map_of_mem f hx
      simp [hv, hnil]
    · simp only [hv, decide_False, Bool.false_eq_true, if_false]
      exact ih h.2

theorem filter_eq_of_perm {β : Type} [DecidableEq β] (v : β) {l1 l2 : List β}
    (h : l1.Perm l2) :
    l1.filter (fun x => decide (x = v)) = l2.filter (fun x => decide (x = v)) := by
  have hrep : ∀ l : List β, l.filter (fun x => decide (x = v)) =
      List.replicate (l.filter fun x => decide (x = v)).length v := by
    intro l
    rw [List.eq_replicate_iff]
    exact ⟨rfl, fun b hb => of_decide_eq_true (List.mem_filter.1 hb).2⟩
  rw [hrep l1, hrep l2, (h.filter _).length_eq]

theorem reverse_eq_self_of_length_le_one {α : Type} (l : List α) (h : l.length ≤ 1) :
    l.reverse = l := by
  match l, h with
  | [], _ => rfl
  | [_], _ => rfl

/-- C5. Starting from a state whose active sort key is not `key`, and with `key` a field of
every record: after three successive calls `sortData(key)` the directive is ascending on `key`
and the collection is in the order it had after the first call. -/
theorem sortData_thrice (s : State) (key : JSString) (hne : s.sortConfig.key ≠ some key)
    (hkey : ∀ r ∈ s.students, (r.get key).isSome) :
    (sortData (sortData (sortData s key) key) key).sortConfig =
      { key := some key, direction := Direction.ascending } ∧
    (sortData (sortData (sortData s key) key) key).students = (sortData s key).students := by
  rw [sortData_thrice_eq s key hne, sortData_of_ne s key hne]
  refine ⟨rfl, ?_⟩
  show sort (compareStudents key Direction.ascending)
      (sort (compareStudents key Direction.descending)
        (sort (compareStudents key Direction.ascending) s.students)) =
    sort (compareStudents key Direction.ascending) s.students
  apply sort_ascending_sort_descending
  · intro r hr
    exact hkey r ((mem_sort _ _ r).1 hr)
  · exact sort_ascending_nonDecreasing key s.students hkey

/-- Witness for C5: three clicks on the grade header from the initial state. -/
theorem sortData_thrice_witness :
    initialState.sortConfig.key ≠ some (str "grade") ∧
    (∀ r ∈ initialState.students, (r.get (str "grade")).isSome) ∧
    (sortData (sortData (sortData initialState (str "grade")) (str "grade"))
      (str "grade")).sortConfig =
      { key := some (str "grade"), direction := Direction.ascending } ∧
    (sortData (sortData (sortData initialState (str "grade")) (str "grade"))
      (str "grade")).students = (sortData initialState (str "grade")).students :=
  ⟨by decide, by decide, sortData_thrice initialState (str "grade") (by decide) (by decide)⟩

/-- C4, as stated, fails on the fixture: sorting by grade twice does not give the reverse of
sorting by grade once, because records 001 and 006, both of grade "A", are not swapped. -/
theorem sortData_twice_not_reverse :
    initialState.sortConfig.key ≠ some (str "grade") ∧
    (sortData (sortData initialState (str "grade")) (str "grade")).students ≠
      (sortData initialState (str "grade")).students.reverse := by
  decide

/-- C4, amended. Starting from a state whose active sort key is not `key`, and with `key` a
field of every record: the sequence of `key` values after two calls `sortData(key)` is the
reverse of the sequence after one call; the collection itself is the exact reverse when no two
records share a value of `key`; and records sharing a value are in the same relative order
after the second call as after the first. -/
theorem sortData_twice_reverse (s : State) (key : JSString)
    (hne : s.sortConfig.key ≠ some key) (hkey : ∀ r ∈ s.students, (r.get key).isSome) :
    (sortData (sortData s key) key).students.map (fun r => r.get key) =
      ((sortData s key).students.map fun r => r.get key).reverse ∧
    ((s.students.map fun r => r.get key).Nodup →
      (sortData (sortData s key) key).students = (sortData s key).students.reverse) ∧
    (∀ v, withValue key v (sortData (sortData s key) key).students =
      withValue key v (sortData s key).students) := by
  rw [sortData_twice_eq s key hne, sortData_of_ne s key hne]
  show (sort (compareStudents key Direction.descending)
        (sort (compareStudents key Direction.ascending) s.students)).map (fun r => r.get key) =
      ((sort (compareStudents key Direction.ascending) s.students).map
        fun r => r.get key).reverse ∧
    ((s.students.map fun r => r.get key).Nodup →
      sort (compareStudents key Direction.descending)
        (sort (compareStudents key Direction.ascending) s.students) =
      (sort (compareStudents key Direction.ascending) s.students).reverse) ∧
    (∀ v, withValue key v (sort (compareStudents key Direction.descending)
        (sort (compareStudents key Direction.ascending) s.students)) =
      withValue key v (sort (compareStudents key Direction.ascending) s.students))
  have hmem : ∀ r ∈ sort (compareStudents key Direction.ascending) s.students,
      (r.get key).isSome := fun r hr => hkey r ((mem_sort _ _ r).1 hr)
  have hasc := sort_ascending_nonDecreasing key s.students hkey
  have hdesc := sort_descending_nonIncreasing key _ hmem
  have hys := sort_perm (compareStudents key Direction.ascending) s.students
  generalize sort (compareStudents key Direction.ascending) s.students = ys
    at hmem hasc hdesc hys
  have hperm : (sort (compareStudents key Direction.descending) ys).Perm ys := sort_perm _ ys
  refine ⟨?_, ?_, ?_⟩
  · apply eq_of_pairwise_of_classes (fun a b : Option JSString => jsLt a b = false)
      (fun x : Option JSString => x) (fun a => jsLt_irrefl a)
    · intro a ha b hb hab hba
      obtain ⟨ra, hra, rfl⟩ := List.mem_map.1 ha
      obtain ⟨rb, hrb, rfl⟩ := List.mem_map.1 hb
      exact jsLt_trichotomy (hmem ra (hperm.mem_iff.1 hra)) (hmem rb (hperm.mem_iff.1 hrb))
        hab hba
    · exact List.pairwise_map.2 hdesc
    · rw [List.pairwise_reverse]
      exact List.pairwise_map.2 hasc
    · intro v
      exact filter_eq_of_perm v ((hperm.map _).trans (List.reverse_perm _).symm)
  · intro hnodup
    have hnodup2 : (ys.map fun r => r.get key).Nodup :=
      ((hys.map fun r => r.get key).nodup_iff).2 hnodup
    apply nonIncreasing_unique key
    · intro r hr
      exact hmem r (hperm.mem_iff.1 hr)
    · exact hdesc
    · unfold NonIncreasing
      rw [List.pairwise_reverse]
      exact hasc
    · intro v
      rw [sort_withValue]
      unfold withValue
      rw [List.filter_reverse,
        reverse_eq_self_of_length_le_one _ (filter_length_le_one_of_nodup _ v ys hnodup2)]
  · intro v
    exact sort_withValue key Direction.descending v ys

/-- Witness for C4, amended: the fixture sorted by name, whose values are pairwise distinct,
is exactly reversed by the second call. -/
theorem sortData_twice_reverse_witness :
    initialState.sortConfig.key ≠ some (str "name") ∧
    (∀ r ∈ initialState.students, (r.get (str "name")).isSome) ∧
    (initialState.students.map fun r => r.get (str "name")).Nodup ∧
    (sortData (sortData initialState (str "name")) (str "name")).students =
      (sortData initialState (str "name")).students.reverse :=
  ⟨by decide, by decide, by decide,
    (sortData_twice_reverse initialState (str "name") (by decide) (by decide)).2.1
      (by decide)⟩

/-! ## Filtering: the result set -/

theorem matchesSearch_iff (toLowerCase : JSString → JSString) (term : JSString) (r : Record) :
    matchesSearch toLowerCase term r = true ↔ MatchesTerm toLowerCase term r := by
  unfold matchesSearch MatchesTerm objectValues
  simp only [List.any_eq_true, List.mem_map, includes_iff]
  constructor
  · rintro ⟨v, ⟨field, hfield, rfl⟩, hv⟩
    exact ⟨field, hfield, hv⟩
  · rintro ⟨field, hfield, hv⟩
    exact ⟨field.2, ⟨field, hfield, rfl⟩, hv⟩

/-- C1. `filteredStudents` is the sub-sequence of the collection made of the matching records:
it is a sub-list of the collection (same relative order), a record is in it exactly when it is
in the collection and some field value, lower-cased, contains the lower-cased term, each
matching record occurs as often as in the collection, and a non-matching record never occurs. -/
theorem filteredStudents_exact (toLowerCase : JSString → JSString) (s : State) :
    List.Sublist (filteredStudents toLowerCase s) s.students ∧
    (∀ r, r ∈ filteredStudents toLowerCase s ↔
      r ∈ s.students ∧ MatchesTerm toLowerCase s.searchTerm r) ∧
    (∀ r, MatchesTerm toLowerCase s.searchTerm r →
      (filteredStudents toLowerCase s).count r = s.students.count r) ∧
    (∀ r, ¬ MatchesTerm toLowerCase s.searchTerm r →
      r ∉ filteredStudents toLowerCase s) := by
  unfold filteredStudents
  refine ⟨List.filter_sublist _, ?_, ?_, ?_⟩
  · intro r
    rw [List.mem_filter, matchesSearch_iff]
  · intro r hr
    exact List.count_filter ((matchesSearch_iff toLowerCase s.searchTerm r).2 hr)
  · intro r hr hmem
    exact hr ((matchesSearch_iff toLowerCase s.searchTerm r).1 (List.mem_filter.1 hmem).2)

/-! ## Pagination -/

theorem slice_page {α : Type} (xs : List α) (p : Nat) (hp : 1 ≤ p) :
    slice xs ((p : Int) * (studentsPerPage : Int) - (studentsPerPage : Int))
      ((p : Int) * (studentsPerPage : Int)) = (xs.drop (firstIndex p)).take studentsPerPage := by
  unfold slice firstIndex studentsPerPage
  have h1 : ¬ ((p : Int) * ((5 : Nat) : Int) - ((5 : Nat) : Int) < 0) := by omega
  have h2 : ¬ ((p : Int) * ((5 : Nat) : Int) < 0) := by omega
  simp only [h1, h2, if_false]
  rcases Nat.lt_or_ge ((p - 1) * 5) xs.length with hlt | hge
  · have hk : (min ((p : Int) * ((5 : Nat) : Int) - ((5 : Nat) : Int)) (xs.length : Int)).toNat
        = (p - 1) * 5 := by omega
    rw [hk, List.take_eq_take, List.length_drop]
    omega
  · have hk : (min ((p : Int) * ((5 : Nat) : Int) - ((5 : Nat) : Int)) (xs.length : Int)).toNat
        = xs.length := by omega
    rw [hk, List.drop_eq_nil_of_le (Nat.le_refl _), List.drop_eq_nil_of_le hge]
    simp

theorem currentStudents_eq (toLowerCase : JSString → JSString) (s : State)
    (hp : 1 ≤ s.currentPage) :
    currentStudents toLowerCase s =
      ((filteredStudents toLowerCase s).drop (firstIndex s.currentPage)).take
        studentsPerPage := by
  unfold currentStudents indexOfFirstStudent indexOfLastStudent
  exact slice_page _ s.currentPage hp

/-- C7. For every page `currentPage ≥ 1`, `currentStudents` is the part of the filtered
collection at the positions `firstIndex ≤ i < lastIndex`, with
`firstIndex = (currentPage - 1) * 5` (the value of `indexOfFirstStudent`) and
`lastIndex = min (firstIndex + 5) N`: position `i` of the window is position `firstIndex + i`
of the filtered collection when that is below `lastIndex` and is absent otherwise; the window
has `lastIndex - firstIndex` records, at most 5, and is empty when `firstIndex ≥ N`, in
particular when the filtered collection is empty. -/
theorem currentStudents_window (toLowerCase : JSString → JSString) (s : State)
    (hp : 1 ≤ s.currentPage) :
    indexOfFirstStudent s = (firstIndex s.currentPage : Int) ∧
    currentStudents toLowerCase s =
      ((filteredStudents toLowerCase s).take
        (lastIndex s.currentPage (filteredStudents toLowerCase s).length)).drop
        (firstIndex s.currentPage) ∧
    (∀ i, (currentStudents toLowerCase s)[i]? =
      if firstIndex s.currentPage + i <
          lastIndex s.currentPage (filteredStudents toLowerCase s).length then
        (filteredStudents toLowerCase s)[firstIndex s.currentPage + i]?
      else none) ∧
    (currentStudents toLowerCase s).length =
      lastIndex s.currentPage (filteredStudents toLowerCase s).length -
        firstIndex s.currentPage ∧
    (currentStudents toLowerCase s).length ≤ studentsPerPage ∧
    ((filteredStudents toLowerCase s).length ≤ firstIndex s.currentPage →
      currentStudents toLowerCase s = []) ∧
    (filteredStudents toLowerCase s = [] → currentStudents toLowerCase s = []) := by
  rw [currentStudents_eq toLowerCase s hp]
  generalize filteredStudents toLowerCase s = fs
  refine ⟨?_, ?_, ?_, ?_, ?_, ?_, ?_⟩
  · unfold indexOfFirstStudent indexOfLastStudent firstIndex studentsPerPage
    omega
  · rw [List.drop_take, List.take_eq_take, List.length_drop]
    unfold lastIndex
    omega
  · intro i
    unfold lastIndex
    by_cases hi : firstIndex s.currentPage + i < min (firstIndex s.currentPage + studentsPerPage)
        fs.length
    · rw [if_pos hi, List.getElem?_take_of_lt (by omega), List.getElem?_drop]
    · rw [if_neg hi]
      apply List.getElem?_eq_none
      rw [List.length_take, List.length_drop]
      omega
  · rw [List.length_take, List.length_drop]
    unfold lastIndex
    omega
  · rw [List.length_take]
    omega
  · intro h
    rw [List.drop_eq_nil_of_le h]
    rfl
  · intro h
    rw [h]
    simp

/-- Witness for C7: page 2 of the unfiltered fixture shows the records at positions 5 to 7. -/
theorem currentStudents_window_witness :
    1 ≤ (paginate initialState 2).currentPage ∧
    currentStudents asciiLowerCase (paginate initialState 2) =
      ((filteredStudents asciiLowerCase (paginate initialState 2)).take
        (lastIndex 2 (filteredStudents asciiLowerCase (paginate initialState 2)).length)).drop
        (firstIndex 2) :=
  ⟨by decide, (currentStudents_window asciiLowerCase (paginate initialState 2) (by decide)).2.1⟩

theorem mathCeilDiv_bounds (n : Nat) :
    n ≤ 5 * mathCeilDiv n 5 ∧ (mathCeilDiv n 5 = 0 ∨ 5 * (mathCeilDiv n 5 - 1) < n) := by
  unfold mathCeilDiv
  split <;> omega

theorem mathCeilDiv_eq_ceil (n : Nat) : mathCeilDiv n 5 = ⌈(n : ℚ) / 5⌉₊ := by
  obtain ⟨hle, hlt⟩ := mathCeilDiv_bounds n
  apply le_antisymm
  · rcases hlt with h0 | hlt
    · rw [h0]
      exact Nat.zero_le _
    · by_contra hcon
      have h1 : ⌈(n : ℚ) / 5⌉₊ ≤ mathCeilDiv n 5 - 1 := by omega
      have h2 : (n : ℚ) / 5 ≤ ((mathCeilDiv n 5 - 1 : ℕ) : ℚ) := Nat.ceil_le.1 h1
      rw [div_le_iff₀ (by norm_num)] at h2
      have h3 : n ≤ (mathCeilDiv n 5 - 1) * 5 := by exact_mod_cast h2
      omega
  · apply Nat.ceil_le.2
    rw [div_le_iff₀ (by norm_num)]
    have : n ≤ mathCeilDiv n 5 * 5 := by omega
    exact_mod_cast this

theorem flatMap_pages {α : Type} (l : List α) (n : Nat) :
    (List.range n).flatMap (fun i => (l.drop (i * 5)).take 5) = l.take (n * 5) := by
  induction n with
  | zero => simp
  | succ n ih =>
    rw [List.range_succ, List.flatMap_append, ih, List.flatMap_singleton, Nat.succ_mul,
      List.take_add]

/-- C6. With page size 5, the number of rendered page buttons is `⌈N / 5⌉` for a filtered
collection of length `N`, the buttons are the pages `1, 2, ..., ⌈N / 5⌉` in this order, the
windows `currentStudents` of these pages concatenated in page order are the filtered collection
itself, and every position of the filtered collection lies in the window of exactly one page. -/
theorem pageButtons_cover (toLowerCase : JSString → JSString) (s : State) :
    (pageButtons toLowerCase s).length =
      ⌈((filteredStudents toLowerCase s).length : ℚ) / 5⌉₊ ∧
    pageButtons toLowerCase s =
      List.range' 1 ⌈((filteredStudents toLowerCase s).length : ℚ) / 5⌉₊ ∧
    (pageButtons toLowerCase s).flatMap (fun p => currentStudents toLowerCase (paginate s p)) =
      filteredStudents toLowerCase s ∧
    (∀ i, i < (filteredStudents toLowerCase s).length →
      ∃! p, p ∈ pageButtons toLowerCase s ∧ firstIndex p ≤ i ∧
        i < lastIndex p (filteredStudents toLowerCase s).length) := by
  have hb := mathCeilDiv_bounds (filteredStudents toLowerCase s).length
  refine ⟨?_, ?_, ?_, ?_⟩
  · unfold pageButtons studentsPerPage
    rw [List.length_map, List.length_range, mathCeilDiv_eq_ceil]
  · unfold pageButtons studentsPerPage
    rw [mathCeilDiv_eq_ceil, List.range'_eq_map_range]
    apply List.map_congr_left
    intro i _
    omega
  · unfold pageButtons studentsPerPage
    rw [List.flatMap_map]
    have hterm : ∀ i, currentStudents toLowerCase (paginate s (i + 1)) =
        ((filteredStudents toLowerCase s).drop (i * 5)).take 5 := by
      intro i
      rw [currentStudents_eq toLowerCase (paginate s (i + 1)) (Nat.succ_le_succ (Nat.zero_le i))]
      rfl
    simp only [hterm]
    rw [flatMap_pages, List.take_of_length_le (by omega)]
  · intro i hi
    refine ⟨i / 5 + 1, ⟨?_, ?_, ?_⟩, ?_⟩
    · unfold pageButtons studentsPerPage
      rw [List.mem_map]
      refine ⟨i / 5, ?_, rfl⟩
      rw [List.mem_range]
      omega
    · unfold firstIndex studentsPerPage
      omega
    · unfold lastIndex firstIndex studentsPerPage
      omega
    · rintro p ⟨hmem, hfirst, hlast⟩
      unfold pageButtons at hmem
      obtain ⟨j, _, rfl⟩ := List.mem_map.1 hmem
      unfold firstIndex studentsPerPage at hfirst
      unfold lastIndex firstIndex studentsPerPage at hlast
      omega

/-! ## Search-term change -/

/-- C8. Typing a search term different from the current one ends, on the same transition,
with `currentPage = 1` and `searchTerm` equal to the typed value, and leaves the collection,
the sort directive, the edit cursor and the expanded row unchanged. -/
theorem searchChange_resets_page (s : State) (value : JSString)
    (hnew : value ≠ s.searchTerm) :
    (searchChange s value).currentPage = 1 ∧
    (searchChange s value).searchTerm = value ∧
    (searchChange s value).students = s.students ∧
    (searchChange s value).sortConfig = s.sortConfig ∧
    (searchChange s value).editingCell = s.editingCell ∧
    (searchChange s value).expandedRow = s.expandedRow := by
  unfold searchChange useEffect setSearchTerm
  simp [hnew]

/-- Witness for C8: the fixture on page 3, then "civics" typed into the search input. -/
theorem searchChange_resets_page_witness :
    (paginate initialState 3).currentPage = 3 ∧
    str "civics" ≠ (paginate initialState 3).searchTerm ∧
    (searchChange (paginate initialState 3) (str "civics")).currentPage = 1 ∧
    (searchChange (paginate initialState 3) (str "civics")).searchTerm = str "civics" :=
  ⟨rfl, by decide,
    (searchChange_resets_page (paginate initialState 3) (str "civics") (by decide)).1,
    (searchChange_resets_page (paginate initialState 3) (str "civics") (by decide)).2.1⟩

/-! ## A stale page after an inline edit -/

/-- C9 fails on the code. From the initial state the user appends "g" to the name of record
005, sorts by grade, searches "g" (six records match, two pages), opens page 2, which shows
only record 005, and deletes the "g" again. Every event is offered by the rendered view. The
state reached has `currentPage = 2` while only page button 1 is rendered: five records match
the search term and the visible window has no record. -/
theorem stale_page_after_edit :
    (run asciiLowerCase initialState
      [Event.editStart (str "005"), Event.edit (str "005") (str "Ethan Huntg"),
       Event.sortBy (str "grade"), Event.search (str "g"), Event.page 2,
       Event.editStart (str "005"), Event.edit (str "005") (str "Ethan Hunt")]).map
      (fun s => (s.currentPage, pageButtons asciiLowerCase s,
        (filteredStudents asciiLowerCase s).length,
        (currentStudents asciiLowerCase s).length)) =
      some (2, [1], 5, 0) := by
  decide

/-! ## Inline edit of a name -/

theorem Record.get_set_self (r : Record) (field value : JSString) :
    (r.set field value).get field = some value := by
  induction r with
  | nil => simp [Record.set, Record.get]
  | cons kv rest ih =>
    obtain ⟨k, v⟩ := kv
    unfold Record.set
    by_cases h : k = field
    · simp [h, Record.get]
    · simp [h, Record.get, ih]

theorem Record.get_set_other (r : Record) (field value key : JSString) (h : key ≠ field) :
    (r.set field value).get key = r.get key := by
  induction r with
  | nil => simp [Record.set, Record.get, Ne.symm h]
  | cons kv rest ih =>
    obtain ⟨k, v⟩ := kv
    unfold Record.set
    by_cases hk : k = field
    · subst hk
      simp [Record.get, Ne.symm h]
    · by_cases hkey : k = key
      · subst hkey
        simp [hk, Record.get]
      · simp [hk, hkey, Record.get, ih]

theorem handleEdit_getElem? (s : State) (rowId field value : JSString) (i : Nat) :
    (handleEdit s rowId field value).students[i]? =
      s.students[i]?.map fun student =>
        if student.get (str "id") = some rowId then student.set field value else student := by
  unfold handleEdit
  simp only [List.getElem?_map]

/-- C10. In a collection with pairwise distinct ids that contains a record with id `a`,
`handleEdit(a, 'name', v)` keeps the length of the collection and the id at every position;
the one record with id `a` gets the name `v` and keeps every other field; every record with
another id is unchanged; and the sort directive, the search term and the current page are
unchanged. -/
theorem handleEdit_name_frame (s : State) (a v : JSString)
    (hnodup : (s.students.map fun r => r.get (str "id")).Nodup)
    (ha : some a ∈ s.students.map fun r => r.get (str "id")) :
    (handleEdit s a (str "name") v).students.length = s.students.length ∧
    (∀ (i : Nat) (r : Record), s.students[i]? = some r →
      ∃ r' : Record, (handleEdit s a (str "name") v).students[i]? = some r' ∧
        r'.get (str "id") = r.get (str "id") ∧
        (r.get (str "id") = some a →
          r'.get (str "name") = some v ∧ ∀ k, k ≠ str "name" → r'.get k = r.get k) ∧
        (r.get (str "id") ≠ some a → r' = r)) ∧
    (∃ i : Nat, (∃ r : Record, s.students[i]? = some r ∧ r.get (str "id") = some a) ∧
      ∀ (j : Nat) (r : Record),
        s.students[j]? = some r → r.get (str "id") = some a → j = i) ∧
    (handleEdit s a (str "name") v).sortConfig = s.sortConfig ∧
    (handleEdit s a (str "name") v).searchTerm = s.searchTerm ∧
    (handleEdit s a (str "name") v).currentPage = s.currentPage ∧
    (handleEdit s a (str "name") v).expandedRow = s.expandedRow := by
  refine ⟨?_, ?_, ?_, rfl, rfl, rfl, rfl⟩
  · unfold handleEdit
    simp only [List.length_map]
  · intro i r hr
    rw [handleEdit_getElem?, hr]
    by_cases hid : r.get (str "id") = some a
    · refine ⟨r.set (str "name") v, by simp [hid], ?_, ?_, ?_⟩
      · exact Record.get_set_other r _ _ _ (by decide)
      · intro _
        exact ⟨Record.get_set_self r _ _, fun k hk => Record.get_set_other r _ _ k hk⟩
      · intro hne
        exact absurd hid hne
    · refine ⟨r, by simp [hid], rfl, ?_, ?_⟩
      · intro h
        exact absurd h hid
      · intro _
        rfl
  · obtain ⟨i, hi⟩ := List.getElem?_of_mem ha
    rw [List.getElem?_map] at hi
    cases hri : s.students[i]? with
    | none => simp [hri] at hi
    | some r =>
      rw [hri] at hi
      refine ⟨i, ⟨r, hri, by simpa using hi⟩, ?_⟩
      intro j r2 hj hr2
      have hjlt : j < (s.students.map fun r => r.get (str "id")).length := by
        rw [List.length_map]
        exact (List.getElem?_eq_some_iff.1 hj).1
      apply List.getElem?_inj hjlt hnodup
      rw [List.getElem?_map, List.getElem?_map, hj, hri]
      simpa [hr2] using hi.symm

/-- Witness for C10: the name of fixture record 002 edited to "Bob X". -/
theorem handleEdit_name_frame_witness :
    (initialState.students.map fun r => r.get (str "id")).Nodup ∧
    some (str "002") ∈ initialState.students.map (fun r => r.get (str "id")) ∧
    (handleEdit initialState (str "002") (str "name") (str "Bob X")).students.length =
      initialState.students.length ∧
    (handleEdit initialState (str "002") (str "name") (str "Bob X")).sortConfig =
      initialState.sortConfig :=
  ⟨by decide, by decide,
    (handleEdit_name_frame initialState (str "002") (str "Bob X") (by decide) (by decide)).1,
    (handleEdit_name_frame initialState (str "002") (str "Bob X") (by decide)
      (by decide)).2.2.2.1⟩

/-! ## The edit cursor after a keystroke -/

/-- C11 fails on the code. With the edit cursor on the name of record 002, the change event
`handleEdit('002', 'name', 'Bob Smithe')` leaves the edit cursor at none, not at
`('002', 'name')`: the name input is no longer rendered, so the next keystroke is not offered
by the view and is not written to the cell. -/
theorem handleEdit_clears_edit_cursor :
    (setEditingCell initialState
      { rowId := some (str "002"), field := some (str "name") }).editingCell =
      { rowId := some (str "002"), field := some (str "name") } ∧
    (handleEdit
      (setEditingCell initialState { rowId := some (str "002"), field := some (str "name") })
      (str "002") (str "name") (str "Bob Smithe")).editingCell =
      { rowId := none, field := none } ∧
    (run asciiLowerCase initialState
      [Event.editStart (str "002"), Event.edit (str "002") (str "Bob Smithe")]).map
      (fun s => s.editingCell) = some { rowId := none, field := none } ∧
    (run asciiLowerCase initialState
      [Event.editStart (str "002"), Event.edit (str "002") (str "Bob Smithe"),
       Event.edit (str "002") (str "Bob Smithes")]).isNone = true := by
  decide

/-! ## Row expansion -/

/-- C12. Clicking the details button of row `R` gives no expanded row when `R` was expanded and
gives `R` as the expanded row otherwise, whatever was expanded before; hence for two different
ids `A` and `B`, clicking `A` then `B` from any state leaves exactly `B` expanded, and clicking
`B` once more leaves none expanded. -/
theorem toggleExpandedRow_singleton (s : State) (R : JSString) :
    (s.expandedRow = some R → (toggleExpandedRow s R).expandedRow = none) ∧
    (s.expandedRow ≠ some R → (toggleExpandedRow s R).expandedRow = some R) ∧
    (∀ A B : JSString, A ≠ B →
      (toggleExpandedRow (toggleExpandedRow s A) B).expandedRow = some B ∧
      (toggleExpandedRow (toggleExpandedRow (toggleExpandedRow s A) B) B).expandedRow =
        none) := by
  refine ⟨?_, ?_, ?_⟩
  · intro h
    simp [toggleExpandedRow, h]
  · intro h
    simp [toggleExpandedRow, h]
  · intro A B hAB
    have h1 : (toggleExpandedRow (toggleExpandedRow s A) B).expandedRow = some B := by
      unfold toggleExpandedRow
      by_cases hA : s.expandedRow = some A
      · simp [hA]
      · simp [hA, hAB]
    refine ⟨h1, ?_⟩
    show (if (toggleExpandedRow (toggleExpandedRow s A) B).expandedRow = some B then none
      else some B) = none
    rw [if_pos h1]

/-- Witness for C12: rows 001 and 002 of the fixture, from the initial state. -/
theorem toggleExpandedRow_singleton_witness :
    str "001" ≠ str "002" ∧
    (toggleExpandedRow (toggleExpandedRow initialState (str "001")) (str "002")).expandedRow =
      some (str "002") ∧
    (toggleExpandedRow (toggleExpandedRow (toggleExpandedRow initialState (str "001"))
      (str "002")) (str "002")).expandedRow = none :=
  ⟨by decide,
    ((toggleExpandedRow_singleton initialState (str "001")).2.2 (str "001") (str "002")
      (by decide)).1,
    ((toggleExpandedRow_singleton initialState (str "001")).2.2 (str "001") (str "002")
      (by decide)).2⟩

/-! ## What sorting leaves alone -/

/-- C13. `sortData(key)` changes only the collection and the sort directive: the current page,
the search term, the edit cursor and the expanded row after the call are those before it. -/
theorem sortData_frame (s : State) (key : JSString) :
    (sortData s key).currentPage = s.currentPage ∧
    (sortData s key).searchTerm = s.searchTerm ∧
    (sortData s key).editingCell = s.editingCell ∧
    (sortData s key).expandedRow = s.expandedRow :=
  ⟨rfl, rfl, rfl, rfl⟩

/-! ## Invariants of the collection -/

theorem handleEdit_name_ids (s : State) (rowId value : JSString) :
    (handleEdit s rowId (str "name") value).students.map (fun r => r.get (str "id")) =
      s.students.map fun r => r.get (str "id") := by
  unfold handleEdit
  rw [List.map_map]
  apply List.map_congr_left
  intro r _
  show (if r.get (str "id") = some rowId then r.set (str "name") value else r).get (str "id") =
    r.get (str "id")
  split
  · exact Record.get_set_other r _ _ _ (by decide)
  · rfl

theorem Event.apply_ids_perm (s : State) (e : Event) :
    ((e.apply s).students.map fun r => r.get (str "id")).Perm
      (s.students.map fun r => r.get (str "id")) := by
  cases e with
  | search value =>
    have h : (searchChange s value).students = s.students := by
      unfold searchChange useEffect setSearchTerm
      split <;> rfl
    show ((searchChange s value).students.map fun r => r.get (str "id")).Perm _
    rw [h]
  | sortBy key => exact (sort_perm _ s.students).map _
  | page pageNumber => exact List.Perm.refl _
  | edit rowId value =>
    show ((handleEdit s rowId (str "name") value).students.map
      fun r => r.get (str "id")).Perm _
    rw [handleEdit_name_ids]
  | editStart rowId => exact List.Perm.refl _
  | editBlur => exact List.Perm.refl _
  | expand rowId => exact List.Perm.refl _

theorem runAll_ids_perm (s : State) (events : List Event) :
    ((runAll s events).students.map fun r => r.get (str "id")).Perm
      (s.students.map fun r => r.get (str "id")) := by
  induction events generalizing s with
  | nil => exact List.Perm.refl _
  | cons e rest ih =>
    show ((runAll (e.apply s) rest).students.map fun r => r.get (str "id")).Perm _
    exact (ih (e.apply s)).trans (Event.apply_ids_perm s e)

/-- A property of records that an edit of the name keeps holds of every record after any
sequence of handler calls, when it holds of every record before. -/
theorem runAll_forall (P : Record → Prop)
    (hP : ∀ (r : Record) (value : JSString), P r → P (r.set (str "name") value))
    (s : State) (hs : ∀ r ∈ s.students, P r) (events : List Event) :
    ∀ r ∈ (runAll s events).students, P r := by
  induction events generalizing s with
  | nil => exact hs
  | cons e rest ih =>
    show ∀ r ∈ (runAll (e.apply s) rest).students, P r
    apply ih
    cases e with
    | search value =>
      have h : (searchChange s value).students = s.students := by
        unfold searchChange useEffect setSearchTerm
        split <;> rfl
      show ∀ r ∈ (searchChange s value).students, P r
      rw [h]
      exact hs
    | sortBy key =>
      intro r hr
      exact hs r ((mem_sort _ _ r).1 hr)
    | page pageNumber => exact hs
    | edit rowId value =>
      intro r hr
      obtain ⟨r0, hr0, rfl⟩ := List.mem_map.1 hr
      split
      · exact hP r0 value (hs r0 hr0)
      · exact hs r0 hr0
    | editStart rowId => exact hs
    | editBlur => exact hs
    | expand rowId => exact hs

/-- C14. After any sequence of handler calls from the seeded state, in particular any sequence
of `sortData` calls (`Event.sortBy`, any key) and `handleEdit` calls on the name (`Event.edit`,
any row id and value), the collection has exactly 8 records, their ids are pairwise distinct,
and the ids are the seed ids "001" to "008", each once. -/
theorem identity_invariant (events : List Event) :
    (runAll initialState events).students.length = 8 ∧
    ((runAll initialState events).students.map fun r => r.get (str "id")).Nodup ∧
    ((runAll initialState events).students.map fun r => r.get (str "id")).Perm
      [some (str "001"), some (str "002"), some (str "003"), some (str "004"),
       some (str "005"), some (str "006"), some (str "007"), some (str "008")] := by
  have hperm := runAll_ids_perm initialState events
  have hseed : (initialState.students.map fun r => r.get (str "id")) =
      [some (str "001"), some (str "002"), some (str "003"), some (str "004"),
       some (str "005"), some (str "006"), some (str "007"), some (str "008")] := by
    decide
  refine ⟨?_, ?_, ?_⟩
  · have h := hperm.length_eq
    rw [List.length_map, List.length_map] at h
    rw [h]
    rfl
  · exact hperm.nodup_iff.2 (by decide)
  · rw [← hseed]
    exact hperm

/-! ## Sorting by a key that is no field -/

theorem sort_eq_self {α : Type} (cmp : α → α → Int) (l : List α)
    (h : ∀ a ∈ l, ∀ b ∈ l, cmp a b ≤ 0) : sort cmp l = l := by
  induction l with
  | nil => rfl
  | cons a l ih =>
    show insertSorted cmp a (sort cmp l) = a :: l
    rw [ih fun x hx y hy => h x (List.mem_cons_of_mem a hx) y (List.mem_cons_of_mem a hy)]
    cases l with
    | nil => rfl
    | cons b t =>
      unfold insertSorted
      rw [if_pos (h a (List.mem_cons_self a _) b (List.mem_cons_of_mem a
        (List.mem_cons_self b t)))]

theorem compare_of_missing (key : JSString) (direction : Direction) (a b : Record)
    (ha : a.get key = none) : compareStudents key direction a b ≤ 0 := by
  unfold compareStudents
  rw [ha]
  cases b.get key <;> simp [jsLt]

theorem sort_of_missing (key : JSString) (direction : Direction) (l : List Record)
    (h : ∀ r ∈ l, r.get key = none) : sort (compareStudents key direction) l = l :=
  sort_eq_self _ l fun a ha b _ => compare_of_missing key direction a b (h a ha)

/-- C15. Sorting by a key that is a field of no record returns the collection in exactly its
previous order. The header row derives the keys "studentid", "name", "classname" and "grade"
from its four labels; "studentid" and "classname" are fields of no fixture record (whose fields
are "studentId" and "className") while "name" and "grade" are fields of all of them; and after
any sequence of handler calls from the seeded state, a click on the header "Student ID" or
"Class Name" leaves the collection in the order it had. -/
theorem sortData_missing_key :
    (∀ (s : State) (key : JSString), (∀ r ∈ s.students, r.get key = none) →
      (sortData s key).students = s.students) ∧
    headers.map (headerSortKey asciiLowerCase) =
      [str "studentid", str "name", str "classname", str "grade"] ∧
    (∀ r ∈ initialStudents,
      r.get (str "studentid") = none ∧ r.get (str "classname") = none ∧
      (r.get (str "studentId")).isSome ∧ (r.get (str "className")).isSome ∧
      (r.get (str "name")).isSome ∧ (r.get (str "grade")).isSome) ∧
    (∀ (events : List Event) (header : JSString),
      header = str "Student ID" ∨ header = str "Class Name" →
      (sortData (runAll initialState events) (headerSortKey asciiLowerCase header)).students =
        (runAll initialState events).students) := by
  have hmissing : ∀ (s : State) (key : JSString), (∀ r ∈ s.students, r.get key = none) →
      (sortData s key).students = s.students := by
    intro s key h
    rw [sortData_students]
    exact sort_of_missing key _ s.students h
  refine ⟨hmissing, by decide, by decide, ?_⟩
  intro events header hheader
  apply hmissing
  rcases hheader with rfl | rfl
  · have hkey : headerSortKey asciiLowerCase (str "Student ID") = str "studentid" := by decide
    rw [hkey]
    exact runAll_forall (fun r => r.get (str "studentid") = none)
      (fun r value hr => (Record.get_set_other r _ value _ (by decide)).trans hr)
      initialState (by decide) events
  · have hkey : headerSortKey asciiLowerCase (str "Class Name") = str "classname" := by decide
    rw [hkey]
    exact runAll_forall (fun r => r.get (str "classname") = none)
      (fun r value hr => (Record.get_set_other r _ value _ (by decide)).trans hr)
      initialState (by decide) events

/-- Witness for C15: clicks on the "Student ID" and "Class Name" headers of the fixture. -/
theorem sortData_missing_key_witness :
    (∀ r ∈ initialState.students, r.get (str "studentid") = none) ∧
    (sortData initialState (str "studentid")).students = initialState.students ∧
    (sortData initialState (headerSortKey asciiLowerCase (str "Class Name"))).students =
      initialState.students :=
  ⟨by decide, sortData_missing_key.1 initialState (str "studentid") (by decide),
    sortData_missing_key.2.2.2 [] (str "Class Name") (Or.inr rfl)⟩

/-! ## The empty search term -/

/-- C16. When every record has at least one field, filtering with the empty search term
returns the whole collection, in the same order. (The lower-casing function is only required
to map the empty string to itself, as `toLowerCase` does.) -/
theorem filteredStudents_empty_term (toLowerCase : JSString → JSString)
    (hlower : toLowerCase [] = []) (s : State) (hterm : s.searchTerm = [])
    (hfields : ∀ r ∈ s.students, r ≠ []) :
    filteredStudents toLowerCase s = s.students := by
  unfold filteredStudents
  rw [List.filter_eq_self]
  intro r hr
  unfold matchesSearch objectValues
  rw [hterm, hlower]
  cases r with
  | nil => exact absurd rfl (hfields [] hr)
  | cons field rest => simp [includes_nil]

/-- Witness for C16: the fixture in its initial state, whose search term is empty. -/
theorem filteredStudents_empty_term_witness :
    asciiLowerCase [] = [] ∧ initialState.searchTerm = [] ∧
    (∀ r ∈ initialState.students, r ≠ []) ∧
    filteredStudents asciiLowerCase initialState = initialState.students :=
  ⟨rfl, rfl, by decide,
    filteredStudents_empty_term asciiLowerCase rfl initialState rfl (by decide)⟩

/-! ## The end-to-end scenario -/

/-- C17. On the 8 fixture students: after `sortData('grade')` the directive is grade ascending
and the first record of the page-1 window has grade "A", which no fixture grade is below; after
then typing "civics" the filtered set is the records 006 and 002, which are exactly the records
of class "Civics", and the current page is 1; after then `handleEdit('002', 'name', 'Bob X')`
and typing "Bob X", the filtered set is the one record with id 002, whose name is "Bob X". -/
theorem fixture_scenario :
    (sortData initialState (str "grade")).sortConfig =
      { key := some (str "grade"), direction := Direction.ascending } ∧
    (sortData initialState (str "grade")).currentPage = 1 ∧
    (currentStudents asciiLowerCase (sortData initialState (str "grade"))).length = 5 ∧
    (currentStudents asciiLowerCase (sortData initialState (str "grade"))).head?.map
      (fun r => r.get (str "grade")) = some (some (str "A")) ∧
    (∀ r ∈ initialStudents, jsLt (r.get (str "grade")) (some (str "A")) = false) ∧
    (filteredStudents asciiLowerCase
      (searchChange (sortData initialState (str "grade")) (str "civics"))).map
      (fun r => r.get (str "id")) = [some (str "006"), some (str "002")] ∧
    filteredStudents asciiLowerCase
      (searchChange (sortData initialState (str "grade")) (str "civics")) =
      (sortData initialState (str "grade")).students.filter
        (fun r => decide (r.get (str "className") = some (str "Civics"))) ∧
    (searchChange (sortData initialState (str "grade")) (str "civics")).currentPage = 1 ∧
    (filteredStudents asciiLowerCase
      (searchChange
        (handleEdit (searchChange (sortData initialState (str "grade")) (str "civics"))
          (str "002") (str "name") (str "Bob X"))
        (str "Bob X"))).map
      (fun r => (r.get (str "id"), r.get (str "name"))) =
      [(some (str "002"), some (str "Bob X"))] := by
  decide

/-! ## Sorting and filtering -/

theorem withValue_filter (key : JSString) (v : Option JSString) (p : Record → Bool)
    (l : List Record) : withValue key v (l.filter p) = (withValue key v l).filter p := by
  unfold withValue
  rw [List.filter_filter, List.filter_filter]
  apply List.filter_congr
  intro r _
  exact Bool.and_comm _ _

theorem sort_filter_comm_of_uniform (key : JSString) (direction : Direction)
    (p : Record → Bool) (xs : List Record)
    (hkey : (∀ r ∈ xs, (r.get key).isSome) ∨ (∀ r ∈ xs, r.get key = none)) :
    (sort (compareStudents key direction) xs).filter p =
      sort (compareStudents key direction) (xs.filter p) := by
  rcases hkey with hsome | hnone
  · have hsorted : ∀ r ∈ sort (compareStudents key direction) xs, (r.get key).isSome :=
      fun r hr => hsome r ((mem_sort _ _ r).1 hr)
    have hfiltered : ∀ r ∈ xs.filter p, (r.get key).isSome :=
      fun r hr => hsome r (List.mem_filter.1 hr).1
    have hclasses : ∀ v, withValue key v ((sort (compareStudents key direction) xs).filter p) =
        withValue key v (sort (compareStudents key direction) (xs.filter p)) := by
      intro v
      rw [withValue_filter, sort_withValue, sort_withValue, withValue_filter]
    cases direction with
    | ascending =>
      apply nonDecreasing_unique key
      · intro r hr
        exact hsorted r (List.mem_filter.1 hr).1
      · exact List.Pairwise.filter _ (sort_ascending_nonDecreasing key xs hsome)
      · exact sort_ascending_nonDecreasing key _ hfiltered
      · exact hclasses
    | descending =>
      apply nonIncreasing_unique key
      · intro r hr
        exact hsorted r (List.mem_filter.1 hr).1
      · exact List.Pairwise.filter _ (sort_descending_nonIncreasing key xs hsome)
      · exact sort_descending_nonIncreasing key _ hfiltered
      · exact hclasses
  · rw [sort_of_missing key direction xs hnone,
      sort_of_missing key direction _ fun r hr => hnone r (List.mem_filter.1 hr).1]

theorem Record.get_isSome_iff (r : Record) (key : JSString) :
    (r.get key).isSome ↔ key ∈ r.map Prod.fst := by
  induction r with
  | nil => simp [Record.get]
  | cons field rest ih =>
    obtain ⟨k, v⟩ := field
    unfold Record.get
    by_cases hk : k = key
    · simp [hk]
    · rw [if_neg hk, ih, List.map_cons, List.mem_cons]
      constructor
      · intro h
        exact Or.inr h
      · rintro (h | h)
        · exact absurd h.symm hk
        · exact h

theorem initialStudents_key_uniform (key : JSString) :
    (∀ r ∈ initialStudents, (r.get key).isSome) ∨
    (∀ r ∈ initialStudents, r.get key = none) := by
  have hkeys : ∀ r ∈ initialStudents, r.map Prod.fst =
      [str "id", str "name", str "className", str "grade", str "studentId", str "email",
       str "lastLogin"] := by
    decide
  by_cases h : key ∈ [str "id", str "name", str "className", str "grade", str "studentId",
      str "email", str "lastLogin"]
  · left
    intro r hr
    rw [Record.get_isSome_iff, hkeys r hr]
    exact h
  · right
    intro r hr
    have hnot : ¬ (r.get key).isSome := by
      rw [Record.get_isSome_iff, hkeys r hr]
      exact h
    cases hget : r.get key with
    | none => rfl
    | some v =>
      rw [hget] at hnot
      exact absurd rfl hnot

/-- In every state the handlers reach from the seeded state, a key is a field of every record
or of no record. -/
theorem runAll_key_uniform (events : List Event) (key : JSString) :
    (∀ r ∈ (runAll initialState events).students, (r.get key).isSome) ∨
    (∀ r ∈ (runAll initialState events).students, r.get key = none) := by
  rcases initialStudents_key_uniform key with h | h
  · left
    apply runAll_forall (fun r => (r.get key).isSome = true) _ initialState h events
    intro r value hr
    by_cases hk : key = str "name"
    · rw [hk, Record.get_set_self]
      rfl
    · rw [Record.get_set_other r _ value key hk]
      exact hr
  · right
    have hk : key ≠ str "name" := by
      intro hk
      rw [hk] at h
      have hno : ¬ ∀ r ∈ initialStudents, r.get (str "name") = none := by decide
      exact hno h
    apply runAll_forall (fun r => r.get key = none) _ initialState h events
    intro r value hr
    rw [Record.get_set_other r _ value key hk]
    exact hr

/-- C18. Sort and filter commute on every collection the view holds: in every state the handlers
reach from the seeded fixture, for every sort key, either direction and every search term,
filtering the sorted collection gives the same list as sorting the filtered collection, and
`filteredStudents` after `sortData` is the sorted `filteredStudents` of before. The same
equation holds for any collection whose records all have the sort key or all lack it. -/
theorem sort_filter_commute (toLowerCase : JSString → JSString) (key : JSString) :
    (∀ (events : List Event) (direction : Direction) (term : JSString),
      (sort (compareStudents key direction) (runAll initialState events).students).filter
          (matchesSearch toLowerCase term) =
        sort (compareStudents key direction)
          ((runAll initialState events).students.filter (matchesSearch toLowerCase term))) ∧
    (∀ events : List Event,
      filteredStudents toLowerCase (sortData (runAll initialState events) key) =
        sort (compareStudents key
            (sortData (runAll initialState events) key).sortConfig.direction)
          (filteredStudents toLowerCase (runAll initialState events))) ∧
    (∀ (direction : Direction) (term : JSString) (xs : List Record),
      ((∀ r ∈ xs, (r.get key).isSome) ∨ (∀ r ∈ xs, r.get key = none)) →
      (sort (compareStudents key direction) xs).filter (matchesSearch toLowerCase term) =
        sort (compareStudents key direction)
          (xs.filter (matchesSearch toLowerCase term))) := by
  refine ⟨?_, ?_, ?_⟩
  · intro events direction term
    exact sort_filter_comm_of_uniform key direction _ _ (runAll_key_uniform events key)
  · intro events
    exact sort_filter_comm_of_uniform key _ _ _ (runAll_key_uniform events key)
  · intro direction term xs hkey
    exact sort_filter_comm_of_uniform key direction _ xs hkey

/-- Witness for C18: the fixture sorted by grade, descending, and searched for "civics", once
as the seeded collection and once as a collection whose records all have the key. -/
theorem sort_filter_commute_witness :
    (sort (compareStudents (str "grade") Direction.descending)
        (runAll initialState []).students).filter
        (matchesSearch asciiLowerCase (str "civics")) =
      sort (compareStudents (str "grade") Direction.descending)
        ((runAll initialState []).students.filter
          (matchesSearch asciiLowerCase (str "civics"))) ∧
    (∀ r ∈ initialStudents, (r.get (str "grade")).isSome) ∧
    (sort (compareStudents (str "grade") Direction.descending) initialStudents).filter
      (matchesSearch asciiLowerCase (str "civics")) =
      sort (compareStudents (str "grade") Direction.descending)
        (initialStudents.filter (matchesSearch asciiLowerCase (str "civics"))) :=
  ⟨(sort_filter_commute asciiLowerCase (str "grade")).1 [] Direction.descending (str "civics"),
    by decide,
    (sort_filter_commute asciiLowerCase (str "grade")).2.2 Direction.descending (str "civics")
      initialStudents (Or.inl (by decide))⟩

end Dashboard

namespace PaymentPage

open Dashboard

/-- C19 fails on the code. Of the two plan cards, the annual one displays "$199.99" and the Pay
button shows "$199.99" when it is selected, but the monthly one, which is the initial
selection, displays "$15.00" while the Pay button shows "$19.99". -/
theorem monthly_pay_amount_differs :
    initialPlan = str "monthly" ∧
    planCards.map (fun card => (card.value, card.price, payButtonAmount (selectPlan card))) =
      [(str "monthly", str "$15.00", str "$19.99"),
       (str "annual", str "$199.99", str "$199.99")] := by
  decide

end PaymentPage
